import Mathlib

/-!
Verification of the contact-form request handler in
`src/functions/contact.ts` (Cloudflare Pages function `onRequestPost`).

Strings are modelled as `List Char`.  JavaScript values that may be
`undefined` or `null` are modelled as `Option (List Char)`; operations that
throw a runtime exception are modelled with `Except Unit`.
-/

namespace Contact

/-- The set of characters matched by the JavaScript regex class `\s` and
removed by `String.prototype.trim`. -/
def isJsWhitespace (c : Char) : Bool :=
  c == ' ' || c == '\t' || c == '\n' || c == '\r' ||
  c == '\x0b' || c == '\x0c' ||
  c == Char.ofNat 0xA0 || c == Char.ofNat 0x1680 ||
  (0x2000 ≤ c.toNat && c.toNat ≤ 0x200A) ||
  c == Char.ofNat 0x2028 || c == Char.ofNat 0x2029 ||
  c == Char.ofNat 0x202F || c == Char.ofNat 0x205F ||
  c == Char.ofNat 0x3000 || c == Char.ofNat 0xFEFF

/-- Drop characters up to and including the first occurrence of the
character `>`; `none` when no `>` occurs.  Helper for the regex
replacement in `sanitize`. -/
def afterGt : List Char → Option (List Char)
  | [] => none
  | c :: cs => if c = '>' then some cs else afterGt cs

/-- Fuel-indexed worker for `stripTags`.  With fuel at least the length of
the list it performs the global replacement of the JavaScript regex
`<[^>]*>` by the empty string: at each `<` that is followed (anywhere
later) by a `>`, everything through the first such `>` is removed;
a `<` with no later `>` is kept, as the regex cannot match there. -/
def stripTagsGo : Nat → List Char → List Char
  | _, [] => []
  | 0, l => l
  | fuel + 1, c :: cs =>
    if c = '<' then
      match afterGt cs with
      | some rest => stripTagsGo fuel rest
      | none => c :: stripTagsGo fuel cs
    else c :: stripTagsGo fuel cs

/-- Embedding of the replacement step of line 44 of `contact.ts`, the
global regex substitution that deletes tag-like substrings. -/
def stripTags (l : List Char) : List Char :=
  stripTagsGo l.length l

/-- JavaScript `String.prototype.trim`: remove leading and trailing JS
whitespace. -/
def trim (l : List Char) : List Char :=
  ((l.dropWhile isJsWhitespace).reverse.dropWhile isJsWhitespace).reverse

/-- The `sanitize` arrow function of `contact.ts` line 44: the tag-deleting
regex replacement followed by trim. -/
def sanitize (l : List Char) : List Char :=
  trim (stripTags l)

/-- Holds when no `<` in the list is followed (at any later position) by
a `>` — that is, the list contains no HTML-tag-like substring. -/
def noTagPair : List Char → Bool
  | [] => true
  | c :: cs => if c = '<' then !(cs.contains '>') && noTagPair cs else noTagPair cs

/-- Holds when the first character (if any) is not JS whitespace. -/
def noLeadWS : List Char → Bool
  | [] => true
  | c :: _ => !(isJsWhitespace c)

/-- Holds when the list has neither leading nor trailing JS whitespace. -/
def trimmed (l : List Char) : Bool :=
  noLeadWS l && noLeadWS l.reverse

theorem afterGt_length : ∀ {cs rest : List Char}, afterGt cs = some rest →
    rest.length < cs.length := by
  intro cs
  induction cs with
  | nil => intro rest h; simp [afterGt] at h
  | cons c cs ih =>
    intro rest h
    simp only [afterGt] at h
    by_cases hc : c = '>'
    · simp [hc] at h; simp [← h]
    · simp [hc] at h
      have := ih h
      simp; omega

theorem afterGt_decomp : ∀ {cs rest : List Char}, afterGt cs = some rest →
    ∃ pre, cs = pre ++ '>' :: rest := by
  intro cs
  induction cs with
  | nil => intro rest h; simp [afterGt] at h
  | cons c cs ih =>
    intro rest h
    simp only [afterGt] at h
    by_cases hc : c = '>'
    · simp [hc] at h; exact ⟨[], by simp [hc, h]⟩
    · simp [hc] at h
      obtain ⟨pre, hpre⟩ := ih h
      exact ⟨c :: pre, by simp [hpre]⟩

theorem afterGt_none : ∀ {cs : List Char}, afterGt cs = none ↔ '>' ∉ cs := by
  intro cs
  induction cs with
  | nil => simp [afterGt]
  | cons c cs ih =>
    simp only [afterGt]
    by_cases hc : c = '>'
    · simp [hc]
    · simp [hc, ih]
      exact fun _ h => hc h.symm

theorem stripTagsGo_fuel : ∀ (f₁ : Nat) {f₂ : Nat} {l : List Char},
    l.length ≤ f₁ → l.length ≤ f₂ → stripTagsGo f₁ l = stripTagsGo f₂ l := by
  intro f₁
  induction f₁ with
  | zero =>
    intro f₂ l h₁ _
    have : l = [] := List.length_eq_zero.mp (Nat.le_zero.mp h₁)
    subst this
    cases f₂ <;> rfl
  | succ f ih =>
    intro f₂ l h₁ h₂
    match l with
    | [] => cases f₂ <;> rfl
    | c :: cs =>
      match f₂ with
      | 0 => simp at h₂
      | f₂' + 1 =>
        simp only [List.length_cons] at h₁ h₂
        simp only [stripTagsGo]
        have hcs : stripTagsGo f cs = stripTagsGo f₂' cs :=
          ih (by omega) (by omega)
        by_cases hc : c = '<'
        · rw [if_pos hc, if_pos hc]
          cases hgt : afterGt cs with
          | some rest =>
            have hlen := afterGt_length hgt
            show stripTagsGo f rest = stripTagsGo f₂' rest
            exact ih (by omega) (by omega)
          | none =>
            show c :: stripTagsGo f cs = c :: stripTagsGo f₂' cs
            rw [hcs]
        · rw [if_neg hc, if_neg hc, hcs]

theorem stripTags_nil : stripTags [] = [] := rfl

theorem stripTags_cons (c : Char) (cs : List Char) :
    stripTags (c :: cs) =
      if c = '<' then
        match afterGt cs with
        | some rest => stripTags rest
        | none => c :: stripTags cs
      else c :: stripTags cs := by
  show stripTagsGo (cs.length + 1) (c :: cs) = _
  simp only [stripTagsGo]
  by_cases hc : c = '<'
  · rw [if_pos hc, if_pos hc]
    cases hgt : afterGt cs with
    | some rest =>
      have hlen := afterGt_length hgt
      show stripTagsGo cs.length rest = stripTagsGo rest.length rest
      exact stripTagsGo_fuel cs.length (by omega) (by omega)
    | none => rfl
  · rw [if_neg hc, if_neg hc]
    rfl

theorem noTagPair_cons (c : Char) (cs : List Char) :
    noTagPair (c :: cs) =
      if c = '<' then !(cs.contains '>') && noTagPair cs else noTagPair cs := rfl

theorem contains_iff {l : List Char} {a : Char} :
    l.contains a = true ↔ a ∈ l := by
  simp [List.contains, List.elem_iff]

theorem mem_stripTags_aux : ∀ (n : Nat) (l : List Char), l.length ≤ n →
    ∀ x, x ∈ stripTags l → x ∈ l := by
  intro n
  induction n with
  | zero =>
    intro l hl x hx
    have : l = [] := List.length_eq_zero.mp (Nat.le_zero.mp hl)
    subst this
    simp [stripTags_nil] at hx
  | succ n ih =>
    intro l hl x hx
    match l with
    | [] => simp [stripTags_nil] at hx
    | c :: cs =>
      rw [stripTags_cons] at hx
      simp only [List.length_cons] at hl
      by_cases hc : c = '<'
      · rw [if_pos hc] at hx
        cases hgt : afterGt cs with
        | some rest =>
          rw [hgt] at hx
          have hlen := afterGt_length hgt
          have hxr : x ∈ rest := ih rest (by omega) x hx
          obtain ⟨pre, hpre⟩ := afterGt_decomp hgt
          subst hpre
          simp [hxr]
        | none =>
          rw [hgt] at hx
          rcases List.mem_cons.mp hx with h | h
          · simp [h]
          · exact List.mem_cons_of_mem c (ih cs (by omega) x h)
      · rw [if_neg hc] at hx
        rcases List.mem_cons.mp hx with h | h
        · simp [h]
        · exact List.mem_cons_of_mem c (ih cs (by omega) x h)

theorem mem_stripTags {x : Char} {l : List Char} (h : x ∈ stripTags l) : x ∈ l :=
  mem_stripTags_aux l.length l (Nat.le_refl _) x h

theorem noTagPair_stripTags_aux : ∀ (n : Nat) (l : List Char), l.length ≤ n →
    noTagPair (stripTags l) = true := by
  intro n
  induction n with
  | zero =>
    intro l hl
    have : l = [] := List.length_eq_zero.mp (Nat.le_zero.mp hl)
    subst this
    rfl
  | succ n ih =>
    intro l hl
    match l with
    | [] => rfl
    | c :: cs =>
      rw [stripTags_cons]
      simp only [List.length_cons] at hl
      by_cases hc : c = '<'
      · rw [if_pos hc]
        cases hgt : afterGt cs with
        | some rest =>
          have hlen := afterGt_length hgt
          exact ih rest (by omega)
        | none =>
          have hnogt : '>' ∉ cs := afterGt_none.mp hgt
          rw [hc, noTagPair_cons, if_pos rfl]
          have h1 : (stripTags cs).contains '>' = false := by
            cases h : (stripTags cs).contains '>'
            · rfl
            · exact absurd (mem_stripTags (contains_iff.mp h)) hnogt
          rw [h1]
          simp [ih cs (by omega)]
      · rw [if_neg hc, noTagPair_cons, if_neg hc]
        exact ih cs (by omega)

theorem noTagPair_stripTags (l : List Char) : noTagPair (stripTags l) = true :=
  noTagPair_stripTags_aux l.length l (Nat.le_refl _)

theorem stripTags_of_noTagPair_aux : ∀ (n : Nat) (l : List Char), l.length ≤ n →
    noTagPair l = true → stripTags l = l := by
  intro n
  induction n with
  | zero =>
    intro l hl _
    have : l = [] := List.length_eq_zero.mp (Nat.le_zero.mp hl)
    subst this
    rfl
  | succ n ih =>
    intro l hl h
    match l with
    | [] => rfl
    | c :: cs =>
      rw [stripTags_cons]
      simp only [List.length_cons] at hl
      by_cases hc : c = '<'
      · rw [noTagPair_cons, if_pos hc, Bool.and_eq_true] at h
        have hnogt : '>' ∉ cs := by
          intro hm
          rw [contains_iff.mpr hm] at h
          simp at h
        rw [if_pos hc, afterGt_none.mpr hnogt, ih cs (by omega) h.2]
      · rw [noTagPair_cons, if_neg hc] at h
        rw [if_neg hc, ih cs (by omega) h]

theorem stripTags_of_noTagPair {l : List Char} (h : noTagPair l = true) :
    stripTags l = l :=
  stripTags_of_noTagPair_aux l.length l (Nat.le_refl _) h

theorem noLeadWS_dropWhile (l : List Char) :
    noLeadWS (l.dropWhile isJsWhitespace) = true := by
  induction l with
  | nil => rfl
  | cons c cs ih =>
    rw [List.dropWhile_cons]
    by_cases hc : isJsWhitespace c = true
    · simp [hc, ih]
    · simp only [hc, if_neg]
      simp at hc
      simp [noLeadWS, hc]

theorem dropWhile_eq_self_of_noLead {l : List Char}
    (h : noLeadWS l = true) : l.dropWhile isJsWhitespace = l := by
  match l with
  | [] => rfl
  | c :: cs =>
    simp only [noLeadWS] at h
    rw [List.dropWhile_cons]
    simp at h
    simp [h]

theorem trim_eq_of_trimmed {l : List Char} (h : trimmed l = true) : trim l = l := by
  rw [trimmed, Bool.and_eq_true] at h
  rw [trim, dropWhile_eq_self_of_noLead h.1, dropWhile_eq_self_of_noLead h.2,
    List.reverse_reverse]

theorem trim_decomp (l : List Char) : ∃ a b, l = a ++ (trim l ++ b) := by
  refine ⟨l.takeWhile isJsWhitespace,
    ((l.dropWhile isJsWhitespace).reverse.takeWhile isJsWhitespace).reverse, ?_⟩
  conv_lhs => rw [← List.takeWhile_append_dropWhile (p := isJsWhitespace) (l := l)]
  congr 1
  rw [trim]
  conv_lhs => rw [← List.reverse_reverse (l.dropWhile isJsWhitespace)]
  rw [← List.reverse_append]
  congr 1
  rw [List.takeWhile_append_dropWhile]

theorem dropWhile_decomp (l : List Char) :
    l.dropWhile isJsWhitespace =
      trim l ++ ((l.dropWhile isJsWhitespace).reverse.takeWhile isJsWhitespace).reverse := by
  rw [trim]
  conv_lhs => rw [← List.reverse_reverse (l.dropWhile isJsWhitespace)]
  rw [← List.reverse_append]
  congr 1
  rw [List.takeWhile_append_dropWhile]

theorem trimmed_trim (l : List Char) : trimmed (trim l) = true := by
  rw [trimmed, Bool.and_eq_true]
  constructor
  · have hy : noLeadWS (l.dropWhile isJsWhitespace) = true := noLeadWS_dropWhile l
    have hd := dropWhile_decomp l
    cases htl : trim l with
    | nil => rfl
    | cons c w =>
      rw [htl] at hd
      rw [hd] at hy
      simpa [noLeadWS] using hy
  · rw [trim, List.reverse_reverse]
    exact noLeadWS_dropWhile _

theorem noTagPair_append_right : ∀ (a b : List Char),
    noTagPair (a ++ b) = true → noTagPair b = true := by
  intro a
  induction a with
  | nil => intro b h; simpa using h
  | cons c a' ih =>
    intro b h
    rw [List.cons_append, noTagPair_cons] at h
    by_cases hc : c = '<'
    · rw [if_pos hc, Bool.and_eq_true] at h
      exact ih b h.2
    · rw [if_neg hc] at h
      exact ih b h

theorem noTagPair_append_left : ∀ (a b : List Char),
    noTagPair (a ++ b) = true → noTagPair a = true := by
  intro a
  induction a with
  | nil => intro b _; rfl
  | cons c a' ih =>
    intro b h
    rw [List.cons_append, noTagPair_cons] at h
    rw [noTagPair_cons]
    by_cases hc : c = '<'
    · rw [if_pos hc, Bool.and_eq_true] at h
      rw [if_pos hc, Bool.and_eq_true]
      refine ⟨?_, ih b h.2⟩
      cases hcon : a'.contains '>'
      · rfl
      · have : '>' ∈ a' ++ b := List.mem_append_left b (contains_iff.mp hcon)
        rw [contains_iff.mpr this] at h
        simp at h
    · rw [if_neg hc] at h
      rw [if_neg hc]
      exact ih b h

theorem noTagPair_trim {l : List Char} (h : noTagPair l = true) :
    noTagPair (trim l) = true := by
  obtain ⟨a, b, hab⟩ := trim_decomp l
  rw [hab] at h
  exact noTagPair_append_left _ _ (noTagPair_append_right _ _ h)

theorem sanitize_noTagPair (l : List Char) : noTagPair (sanitize l) = true :=
  noTagPair_trim (noTagPair_stripTags l)

theorem sanitize_clean {l : List Char} (h1 : noTagPair l = true)
    (h2 : trimmed l = true) : sanitize l = l := by
  rw [sanitize, stripTags_of_noTagPair h1, trim_eq_of_trimmed h2]

theorem sanitize_trimmed (l : List Char) : trimmed (sanitize l) = true :=
  trimmed_trim _

theorem sanitize_idem (l : List Char) : sanitize (sanitize l) = sanitize l :=
  sanitize_clean (sanitize_noTagPair l) (sanitize_trimmed l)

theorem noTagPair_false_of_decomp : ∀ (a b c : List Char),
    noTagPair (a ++ '<' :: (b ++ '>' :: c)) = false := by
  intro a
  induction a with
  | nil =>
    intro b c
    rw [List.nil_append, noTagPair_cons, if_pos rfl]
    have : '>' ∈ b ++ '>' :: c := List.mem_append_right b (List.mem_cons_self _ _)
    rw [contains_iff.mpr this]
    rfl
  | cons x a' ih =>
    intro b c
    rw [List.cons_append, noTagPair_cons]
    by_cases hx : x = '<'
    · rw [if_pos hx, ih b c]
      simp
    · rw [if_neg hx, ih b c]

theorem decomp_of_noTagPair_false : ∀ (l : List Char), noTagPair l = false →
    ∃ a b c, l = a ++ '<' :: (b ++ '>' :: c) := by
  intro l
  induction l with
  | nil => intro h; simp [noTagPair] at h
  | cons x xs ih =>
    intro h
    rw [noTagPair_cons] at h
    by_cases hx : x = '<'
    · rw [if_pos hx] at h
      rcases Bool.and_eq_false_iff.mp h with h1 | h2
      · have hgt : '>' ∈ xs := by
          cases hcon : xs.contains '>'
          · rw [hcon] at h1; simp at h1
          · exact contains_iff.mp hcon
        obtain ⟨s, t, hst⟩ := List.append_of_mem hgt
        exact ⟨[], s, t, by simp [hx, hst]⟩
      · obtain ⟨a, b, c, habc⟩ := ih h2
        exact ⟨x :: a, b, c, by simp [habc]⟩
    · rw [if_neg hx] at h
      obtain ⟨a, b, c, habc⟩ := ih h
      exact ⟨x :: a, b, c, by simp [habc]⟩

/-- The Boolean `noTagPair` exactly captures absence of an HTML-tag-like
substring: no `<` anywhere followed by a later `>`. -/
theorem noTagPair_iff (l : List Char) :
    noTagPair l = true ↔ ¬ ∃ a b c, l = a ++ '<' :: (b ++ '>' :: c) := by
  constructor
  · intro h hex
    obtain ⟨a, b, c, habc⟩ := hex
    rw [habc, noTagPair_false_of_decomp] at h
    simp at h
  · intro h
    cases hn : noTagPair l
    · exact absurd (decomp_of_noTagPair_false l hn) h
    · rfl

/-- The character class `[^\s@]` of the email regex on line 56 of
`contact.ts`: any character that is neither JS whitespace nor `@`. -/
def isEmailChar (c : Char) : Bool :=
  !(isJsWhitespace c) && c != '@'

/-- Split a list at its first `@`: `some (before, after)` when an `@`
occurs, `none` otherwise. -/
def splitAtFirstAt : List Char → Option (List Char × List Char)
  | [] => none
  | c :: cs =>
    if c = '@' then some ([], cs)
    else
      match splitAtFirstAt cs with
      | some (a, t) => some (c :: a, t)
      | none => none

/-- Holds when the list contains a `.` that is not its last element. -/
def dotNotLast : List Char → Bool
  | [] => false
  | c :: cs => (c == '.' && !cs.isEmpty) || dotNotLast cs

/-- Holds when the list contains a `.` that is neither first nor last. -/
def hasInternalDot : List Char → Bool
  | [] => false
  | _ :: cs => dotNotLast cs

/-- Embedding of `emailRegex.test` for the pattern of line 56 of
`contact.ts`.  The first `[^\s@]+` cannot cross an `@`, so the literal
`@` of the pattern matches the first `@` of the string; the part after it
must consist of non-whitespace non-`@` characters and contain a `.` that
is neither immediately after the `@` nor last. -/
def emailRegexTest (l : List Char) : Bool :=
  match splitAtFirstAt l with
  | some (a, t) =>
    !a.isEmpty && a.all isEmailChar && t.all isEmailChar && hasInternalDot t
  | none => false

/-- Declarative reading of the email pattern, following the words of the
spec: one or more non-space-non-at characters, a literal at sign, one or
more non-space-non-at characters, a literal dot, one or more
non-space-non-at characters. -/
def emailShape (l : List Char) : Prop :=
  ∃ a b c, l = a ++ '@' :: (b ++ '.' :: c) ∧
    a ≠ [] ∧ b ≠ [] ∧ c ≠ [] ∧
    a.all isEmailChar = true ∧ b.all isEmailChar = true ∧ c.all isEmailChar = true

theorem splitAtFirstAt_eq : ∀ {l a t : List Char},
    splitAtFirstAt l = some (a, t) → l = a ++ '@' :: t ∧ '@' ∉ a := by
  intro l
  induction l with
  | nil => intro a t h; simp [splitAtFirstAt] at h
  | cons c cs ih =>
    intro a t h
    simp only [splitAtFirstAt] at h
    by_cases hc : c = '@'
    · rw [if_pos hc] at h
      simp at h
      obtain ⟨h1, h2⟩ := h
      subst h1
      subst h2
      simp [hc]
    · rw [if_neg hc] at h
      cases hs : splitAtFirstAt cs with
      | none => rw [hs] at h; simp at h
      | some p =>
        obtain ⟨a', t'⟩ := p
        rw [hs] at h
        simp at h
        obtain ⟨he, ht⟩ := ih hs
        refine ⟨?_, ?_⟩
        · rw [← h.1, ← h.2]
          simp [he]
        · rw [← h.1]
          simp only [List.mem_cons, not_or]
          exact ⟨fun hh => hc hh.symm, ht⟩

theorem splitAtFirstAt_of_decomp : ∀ (a t : List Char), '@' ∉ a →
    splitAtFirstAt (a ++ '@' :: t) = some (a, t) := by
  intro a
  induction a with
  | nil => intro t _; simp [splitAtFirstAt]
  | cons c a' ih =>
    intro t hna
    have hc : c ≠ '@' := fun h => hna (by simp [h])
    have hna' : '@' ∉ a' := fun h => hna (List.mem_cons_of_mem c h)
    rw [List.cons_append]
    simp only [splitAtFirstAt]
    rw [if_neg hc, ih t hna']

theorem dotNotLast_iff : ∀ (l : List Char),
    dotNotLast l = true ↔ ∃ b c, l = b ++ '.' :: c ∧ c ≠ [] := by
  intro l
  induction l with
  | nil =>
    simp only [dotNotLast]
    constructor
    · intro h; simp at h
    · rintro ⟨b, c, hbc, _⟩
      exact absurd hbc (by simp)
  | cons x xs ih =>
    simp only [dotNotLast]
    constructor
    · intro h
      rw [Bool.or_eq_true] at h
      rcases h with h1 | h2
      · rw [Bool.and_eq_true] at h1
        have hx : x = '.' := by simpa using h1.1
        have hxs : xs ≠ [] := by
          intro hh
          rw [hh] at h1
          simp at h1
        exact ⟨[], xs, by simp [hx], hxs⟩
      · obtain ⟨b, c, hbc, hc⟩ := ih.mp h2
        exact ⟨x :: b, c, by simp [hbc], hc⟩
    · rintro ⟨b, c, hbc, hc⟩
      cases b with
      | nil =>
        simp at hbc
        rw [hbc.1, hbc.2]
        have : c.isEmpty = false := by
          cases c
          · exact absurd rfl hc
          · rfl
        simp [this]
      | cons y b' =>
        simp at hbc
        have : dotNotLast xs = true := ih.mpr ⟨b', c, hbc.2, hc⟩
        simp [this]

theorem hasInternalDot_iff : ∀ (t : List Char),
    hasInternalDot t = true ↔ ∃ b c, t = b ++ '.' :: c ∧ b ≠ [] ∧ c ≠ [] := by
  intro t
  cases t with
  | nil =>
    simp only [hasInternalDot]
    constructor
    · intro h; simp at h
    · rintro ⟨b, c, hbc, _, _⟩
      exact absurd hbc (by simp)
  | cons x xs =>
    simp only [hasInternalDot]
    rw [dotNotLast_iff]
    constructor
    · rintro ⟨b, c, hbc, hc⟩
      exact ⟨x :: b, c, by simp [hbc], by simp, hc⟩
    · rintro ⟨b, c, hbc, hb, hc⟩
      cases b with
      | nil => exact absurd rfl hb
      | cons y b' =>
        simp at hbc
        exact ⟨b', c, hbc.2, hc⟩

/-- The executable regex matcher agrees with the declarative
`local at domain dot tld` shape. -/
theorem emailRegexTest_iff_emailShape (l : List Char) :
    emailRegexTest l = true ↔ emailShape l := by
  constructor
  · intro h
    rw [emailRegexTest] at h
    cases hs : splitAtFirstAt l with
    | none => rw [hs] at h; simp at h
    | some p =>
      obtain ⟨a, t⟩ := p
      rw [hs] at h
      simp only [Bool.and_eq_true] at h
      obtain ⟨⟨⟨hne, hall⟩, htall⟩, hdot⟩ := h
      obtain ⟨hl, _⟩ := splitAtFirstAt_eq hs
      obtain ⟨b, c, hbc, hb, hc⟩ := hasInternalDot_iff t |>.mp hdot
      refine ⟨a, b, c, ?_, ?_, hb, hc, hall, ?_, ?_⟩
      · rw [hl, hbc]
      · intro ha; rw [ha] at hne; simp at hne
      · rw [hbc, List.all_append, Bool.and_eq_true] at htall
        exact htall.1
      · rw [hbc, List.all_append, Bool.and_eq_true] at htall
        have h2 := htall.2
        simp only [List.all_cons, Bool.and_eq_true] at h2
        exact h2.2
  · rintro ⟨a, b, c, hl, ha, hb, hc, haal, hbal, hcal⟩
    have hna : '@' ∉ a := by
      intro hm
      have := List.all_eq_true.mp haal '@' hm
      simp [isEmailChar] at this
    rw [emailRegexTest, hl, splitAtFirstAt_of_decomp a _ hna]
    simp only [Bool.and_eq_true]
    refine ⟨⟨⟨?_, haal⟩, ?_⟩, ?_⟩
    · cases a
      · exact absurd rfl ha
      · rfl
    · rw [List.all_append]
      simp only [Bool.and_eq_true]
      refine ⟨hbal, ?_⟩
      simp only [List.all_cons, Bool.and_eq_true]
      exact ⟨by simp [isEmailChar, isJsWhitespace], hcal⟩
    · exact (hasInternalDot_iff _).mpr ⟨b, c, rfl, hb, hc⟩

/-- The replacement on line 92 of `contact.ts`: every newline of the
message becomes the four characters of an HTML line break. -/
def nlToBr : List Char → List Char
  | [] => []
  | c :: cs =>
    if c = '\n' then '<' :: 'b' :: 'r' :: '>' :: nlToBr cs else c :: nlToBr cs

/-- Line 22, the split of ALLOWED_ORIGINS on every comma, with no
trimming; the empty string splits to a single empty segment. -/
def splitComma : List Char → List (List Char)
  | [] => [[]]
  | c :: cs =>
    if c = ',' then [] :: splitComma cs
    else
      match splitComma cs with
      | [] => [[c]]
      | s :: rest => (c :: s) :: rest

/-- JavaScript `String.prototype.includes`: `needle` occurs contiguously
in `hay`. -/
def listIncludes (hay needle : List Char) : Bool :=
  (List.range (hay.length + 1)).any fun i => needle.isPrefixOf (hay.drop i)

/-- The raw `ContactRequest` fields as they come out of body parsing.
`none` models a field that is absent (JavaScript `undefined`). -/
structure RawContact where
  name : Option (List Char)
  email : Option (List Char)
  phone : Option (List Char)
  message : Option (List Char)
deriving DecidableEq

/-- The geo attributes of `request.cf`. -/
structure CfInfo where
  country : Option (List Char)
  city : Option (List Char)
  region : Option (List Char)
  timezone : Option (List Char)
  asn : Option (List Char)
  colo : Option (List Char)

/-- The environment bindings of the Pages function. -/
structure Env where
  RESEND_API_KEY : List Char
  TO_EMAIL : List Char
  ALLOWED_ORIGINS : List Char

/-- The parts of the incoming request that `onRequestPost` consults.
`jsonBody` is the outcome of `await request.json()` (an exception models a
parse failure), `formBody` the outcome of `await request.formData()` with
the four fields read via `formData.get` (`none` models a missing field,
that is, a `null` result).  `fetchResult` is the outcome of the outbound
`fetch`: an exception models a network error, otherwise the Boolean is the
`ok` flag of the provider response. -/
structure Request where
  origin : Option (List Char)
  contentType : Option (List Char)
  jsonBody : Except Unit RawContact
  formBody : Except Unit RawContact
  cfConnectingIP : Option (List Char)
  xForwardedFor : Option (List Char)
  userAgent : Option (List Char)
  cf : Option CfInfo
  fetchResult : Except Unit Bool

/-- An HTTP response: status code and body text. -/
structure Response where
  status : Nat
  body : List Char
deriving DecidableEq

/-- The JSON body sent to `https://api.resend.com/emails` (lines 82-104). -/
structure EmailPayload where
  «from» : List Char
  «to» : List Char
  subject : List Char
  html : List Char
  reply_to : List Char
deriving DecidableEq

def missingFieldsMsg : List Char :=
  "Missing required fields: name, email, message".toList

def invalidEmailMsg : List Char := "Invalid email format".toList

def tooLongMsg : List Char := "Input too long".toList

def forbiddenMsg : List Char := "Forbidden".toList

def successJson : List Char :=
  "\x7b\"success\":true,\"message\":\"Email sent successfully\"\x7d".toList

def failureJson : List Char :=
  "\x7b\"success\":false,\"message\":\"Failed to send email\"\x7d".toList

def unknownStr : List Char := "unknown".toList

/-- JavaScript `a || b` on strings and string-or-undefined values: the
default is used when the value is absent or the empty string (both falsy). -/
def jsOrElse (o : Option (List Char)) (d : List Char) : List Char :=
  match o with
  | some s => if s.isEmpty then d else s
  | none => d

/-- The condition of line 24: `origin && !allowedDomains.includes(origin)`.
An absent `Origin` header, or an empty one (falsy), never rejects. -/
def originRejected (req : Request) (env : Env) : Bool :=
  match req.origin with
  | some o => !o.isEmpty && !((splitComma env.ALLOWED_ORIGINS).contains o)
  | none => false

/-- Line 31, whether the content type mentions application/json, false
when the header is absent. -/
def ctIncludesJson (ct : Option (List Char)) : Bool :=
  match ct with
  | some s => listIncludes s "application/json".toList
  | none => false

/-- Lines 31-41: JSON bodies are cast unchecked, so absent fields stay
absent; form fields are defaulted to the empty string via `|| ''`. -/
def parseBody (req : Request) : Except Unit RawContact :=
  if ctIncludesJson req.contentType then req.jsonBody
  else
    match req.formBody with
    | .error e => .error e
    | .ok f =>
      .ok ⟨some (jsOrElse f.name []), some (jsOrElse f.email []),
        some (jsOrElse f.phone []), some (jsOrElse f.message [])⟩

/-- The HTML template literal of lines 86-102, with the exact whitespace of
the source. -/
def buildHtml (name email phone message clientIP city region country
    timezone asn colo userAgent : List Char) : List Char :=
  "\n          <h2>New Contact Form Submission</h2>\n          <p><strong>Name:</strong> ".toList
  ++ name
  ++ "</p>\n          <p><strong>Email:</strong> ".toList
  ++ email
  ++ "</p>\n          <p><strong>Phone:</strong> ".toList
  ++ (if phone.isEmpty then "Not provided".toList else phone)
  ++ "</p>\n          <p><strong>Message:</strong></p>\n          <p>".toList
  ++ nlToBr message
  ++ "</p>\n          \n          <hr>\n          <h3>Connection Details</h3>\n          <p><strong>IP Address:</strong> ".toList
  ++ clientIP
  ++ "</p>\n          <p><strong>Location:</strong> ".toList
  ++ city ++ ", ".toList ++ region ++ ", ".toList ++ country
  ++ "</p>\n          <p><strong>Timezone:</strong> ".toList
  ++ timezone
  ++ "</p>\n          <p><strong>ISP:</strong> ".toList
  ++ asn
  ++ "</p>\n          <p><strong>Cloudflare DC:</strong> ".toList
  ++ colo
  ++ "</p>\n          <p><strong>User Agent:</strong> ".toList
  ++ userAgent
  ++ "</p>\n        ".toList

/-- Lines 66-104: connection metadata with `unknown` fallbacks, and the
outbound JSON payload for the provider, built from the sanitized fields
`n`, `e`, `p`, `m`. -/
def buildPayload (req : Request) (env : Env) (n e p m : List Char) :
    EmailPayload :=
  let clientIP := jsOrElse req.cfConnectingIP (jsOrElse req.xForwardedFor unknownStr)
  let userAgent := jsOrElse req.userAgent unknownStr
  let country := match req.cf with | some c => jsOrElse c.country unknownStr | none => unknownStr
  let city := match req.cf with | some c => jsOrElse c.city unknownStr | none => unknownStr
  let region := match req.cf with | some c => jsOrElse c.region unknownStr | none => unknownStr
  let timezone := match req.cf with | some c => jsOrElse c.timezone unknownStr | none => unknownStr
  let asn := match req.cf with | some c => jsOrElse c.asn unknownStr | none => unknownStr
  let colo := match req.cf with | some c => jsOrElse c.colo unknownStr | none => unknownStr
  { «from» := "contact@yourdomain.com".toList
    «to» := env.TO_EMAIL
    subject := "Contact Form: ".toList ++ n
    html := buildHtml n e p m clientIP city region country timezone asn colo userAgent
    reply_to := e }

/-- Lines 50-109, after the four fields have been sanitized: required-field
check, email-format check, length limits, then the outbound `fetch` and the
`ok` test.  The second component records the payload passed to `fetch` when
the call is reached. -/
def validateAndSend (req : Request) (env : Env) (n e p m : List Char) :
    Except Unit Response × Option EmailPayload :=
  if n.isEmpty || e.isEmpty || m.isEmpty then
    (.ok ⟨400, missingFieldsMsg⟩, none)
  else if !(emailRegexTest e) then
    (.ok ⟨400, invalidEmailMsg⟩, none)
  else if n.length > 100 ∨ e.length > 255 ∨ m.length > 5000 then
    (.ok ⟨400, tooLongMsg⟩, none)
  else
    let payload := buildPayload req env n e p m
    match req.fetchResult with
    | .error _ => (.error (), some payload)
    | .ok ok => if ok then (.ok ⟨200, successJson⟩, some payload)
                else (.error (), some payload)

/-- The body of the `try` block of `onRequestPost` (lines 17-114).
`.error` in the first component means an exception reached the top-level
`catch`.  Sanitizing an absent field models the `TypeError` thrown by
`undefined.replace`. -/
def handleAttempt (req : Request) (env : Env) :
    Except Unit Response × Option EmailPayload :=
  if originRejected req env then (.ok ⟨403, forbiddenMsg⟩, none)
  else
    match parseBody req with
    | .error _ => (.error (), none)
    | .ok raw =>
      match raw.name, raw.email, raw.phone, raw.message with
      | some n0, some e0, some p0, some m0 =>
        validateAndSend req env (sanitize n0) (sanitize e0) (sanitize p0) (sanitize m0)
      | _, _, _, _ => (.error (), none)

/-- The full handler: the `catch` block (lines 116-122) turns any exception
into a 500 with a generic JSON body. -/
def onRequestPost (req : Request) (env : Env) : Response :=
  match (handleAttempt req env).1 with
  | .ok r => r
  | .error _ => ⟨500, failureJson⟩

/-- The payload the handler passed to the outbound `fetch`, when any. -/
def sentEmail (req : Request) (env : Env) : Option EmailPayload :=
  (handleAttempt req env).2

/-- The conjunction of all field-validation conditions that let a sanitized
submission through to the outbound call. -/
def ValidFields (n e m : List Char) : Prop :=
  n ≠ [] ∧ e ≠ [] ∧ m ≠ [] ∧ emailRegexTest e = true ∧
    n.length ≤ 100 ∧ e.length ≤ 255 ∧ m.length ≤ 5000

instance (n e m : List Char) : Decidable (ValidFields n e m) := by
  unfold ValidFields
  infer_instance

theorem vas_missing (req : Request) (env : Env) {n e m : List Char}
    (p : List Char) (h : n = [] ∨ e = [] ∨ m = []) :
    validateAndSend req env n e p m = (.ok ⟨400, missingFieldsMsg⟩, none) := by
  have hb : (n.isEmpty || e.isEmpty || m.isEmpty) = true := by
    rcases h with h | h | h <;> subst h <;> simp
  simp [validateAndSend, hb]

theorem vas_invalidEmail (req : Request) (env : Env) {n e m : List Char}
    (p : List Char) (hn : n ≠ []) (he : e ≠ []) (hm : m ≠ [])
    (hr : emailRegexTest e = false) :
    validateAndSend req env n e p m = (.ok ⟨400, invalidEmailMsg⟩, none) := by
  have hb : (n.isEmpty || e.isEmpty || m.isEmpty) = false := by
    simp [hn, he, hm]
  simp [validateAndSend, hb, hr]

theorem vas_tooLong (req : Request) (env : Env) {n e m : List Char}
    (p : List Char) (hn : n ≠ []) (he : e ≠ []) (hm : m ≠ [])
    (hr : emailRegexTest e = true)
    (hlen : n.length > 100 ∨ e.length > 255 ∨ m.length > 5000) :
    validateAndSend req env n e p m = (.ok ⟨400, tooLongMsg⟩, none) := by
  have hb : (n.isEmpty || e.isEmpty || m.isEmpty) = false := by
    simp [hn, he, hm]
  simp [validateAndSend, hb, hr, hlen]

theorem vas_valid (req : Request) (env : Env) {n e m : List Char}
    (p : List Char) (h : ValidFields n e m) :
    validateAndSend req env n e p m =
      ((match req.fetchResult with
        | .error _ => .error ()
        | .ok ok => if ok then .ok ⟨200, successJson⟩ else .error ()),
        some (buildPayload req env n e p m)) := by
  obtain ⟨hn, he, hm, hr, h1, h2, h3⟩ := h
  have hb : (n.isEmpty || e.isEmpty || m.isEmpty) = false := by
    simp [hn, he, hm]
  have hlen : ¬(n.length > 100 ∨ e.length > 255 ∨ m.length > 5000) := by omega
  simp only [validateAndSend, hb, Bool.false_eq_true, if_false, hr,
    Bool.not_true, if_neg hlen]
  cases req.fetchResult with
  | error u => rfl
  | ok ok => cases ok <;> rfl

theorem vas_ok_200 (req : Request) (env : Env) {n e m : List Char}
    (p : List Char) (h : ValidFields n e m) (hf : req.fetchResult = .ok true) :
    validateAndSend req env n e p m =
      (.ok ⟨200, successJson⟩, some (buildPayload req env n e p m)) := by
  rw [vas_valid req env p h, hf]
  rfl

theorem vas_inv (req : Request) (env : Env) {n e p m : List Char}
    {pl : EmailPayload}
    (h : (validateAndSend req env n e p m).2 = some pl) :
    pl = buildPayload req env n e p m ∧ ValidFields n e m := by
  by_cases hb : (n.isEmpty || e.isEmpty || m.isEmpty) = true
  · rw [vas_missing req env p ?_] at h
    · simp at h
    · rcases Bool.or_eq_true .. ▸ hb with h1 | h1
      · rcases Bool.or_eq_true .. ▸ h1 with h2 | h2
        · exact Or.inl (by simpa using h2)
        · exact Or.inr (Or.inl (by simpa using h2))
      · exact Or.inr (Or.inr (by simpa using h1))
  · have hb' : (n.isEmpty || e.isEmpty || m.isEmpty) = false :=
      Bool.eq_false_iff.mpr hb
    simp only [Bool.or_eq_true, List.isEmpty_iff, not_or] at hb
    obtain ⟨⟨hn, he⟩, hm⟩ := hb
    cases hr : emailRegexTest e with
    | false =>
      rw [vas_invalidEmail req env p hn he hm hr] at h
      simp at h
    | true =>
      by_cases hlen : n.length > 100 ∨ e.length > 255 ∨ m.length > 5000
      · rw [vas_tooLong req env p hn he hm hr hlen] at h
        simp at h
      · have hv : ValidFields n e m := by
          refine ⟨hn, he, hm, hr, ?_, ?_, ?_⟩ <;> omega
        rw [vas_valid req env p hv] at h
        simp at h
        exact ⟨h.symm, hv⟩

theorem vas_ok_status (req : Request) (env : Env) {n e p m : List Char}
    {r : Response} (h : (validateAndSend req env n e p m).1 = .ok r) :
    r = ⟨400, missingFieldsMsg⟩ ∨ r = ⟨400, invalidEmailMsg⟩ ∨
    r = ⟨400, tooLongMsg⟩ ∨ r = ⟨200, successJson⟩ := by
  by_cases hb : (n = [] ∨ e = [] ∨ m = [])
  · rw [vas_missing req env p hb] at h
    simp at h
    exact Or.inl h.symm
  · push_neg at hb
    obtain ⟨hn, he, hm⟩ := hb
    cases hr : emailRegexTest e with
    | false =>
      rw [vas_invalidEmail req env p hn he hm hr] at h
      simp at h
      exact Or.inr (Or.inl h.symm)
    | true =>
      by_cases hlen : n.length > 100 ∨ e.length > 255 ∨ m.length > 5000
      · rw [vas_tooLong req env p hn he hm hr hlen] at h
        simp at h
        exact Or.inr (Or.inr (Or.inl h.symm))
      · have hv : ValidFields n e m := by
          refine ⟨hn, he, hm, hr, ?_, ?_, ?_⟩ <;> omega
        rw [vas_valid req env p hv] at h
        cases hf : req.fetchResult with
        | error u => rw [hf] at h; simp at h
        | ok ok =>
          rw [hf] at h
          cases ok with
          | false => simp at h
          | true =>
            simp at h
            exact Or.inr (Or.inr (Or.inr h.symm))

theorem ha_originRejected (req : Request) (env : Env)
    (h : originRejected req env = true) :
    handleAttempt req env = (.ok ⟨403, forbiddenMsg⟩, none) := by
  simp [handleAttempt, h]

theorem ha_fields (req : Request) (env : Env) {n0 e0 p0 m0 : List Char}
    (hor : originRejected req env = false)
    (hp : parseBody req = .ok ⟨some n0, some e0, some p0, some m0⟩) :
    handleAttempt req env =
      validateAndSend req env (sanitize n0) (sanitize e0) (sanitize p0) (sanitize m0) := by
  simp [handleAttempt, hor, hp]

theorem ha_absent (req : Request) (env : Env) {raw : RawContact}
    (hor : originRejected req env = false)
    (hp : parseBody req = .ok raw)
    (h : raw.name = none ∨ raw.email = none ∨ raw.phone = none ∨ raw.message = none) :
    handleAttempt req env = (.error (), none) := by
  obtain ⟨nf, ef, pf, mf⟩ := raw
  simp only [handleAttempt, hor, Bool.false_eq_true, if_false, hp]
  simp only at h
  cases nf with
  | none => rfl
  | some n0 =>
    cases ef with
    | none => rfl
    | some e0 =>
      cases pf with
      | none => rfl
      | some p0 =>
        cases mf with
        | none => rfl
        | some m0 => simp at h

theorem onRequestPost_of_error (req : Request) (env : Env)
    (h : (handleAttempt req env).1 = .error ()) :
    onRequestPost req env = ⟨500, failureJson⟩ := by
  rw [onRequestPost, h]

theorem onRequestPost_of_ok (req : Request) (env : Env) {r : Response}
    (h : (handleAttempt req env).1 = .ok r) :
    onRequestPost req env = r := by
  rw [onRequestPost, h]

theorem status403_iff (req : Request) (env : Env) :
    (onRequestPost req env).status = 403 ↔ originRejected req env = true := by
  constructor
  · intro h
    cases hor : originRejected req env with
    | true => rfl
    | false =>
      exfalso
      rw [onRequestPost] at h
      cases hh : (handleAttempt req env).1 with
      | error u => rw [hh] at h; simp at h
      | ok r =>
        rw [hh] at h
        simp only [handleAttempt, hor, Bool.false_eq_true, if_false] at hh
        cases hpb : parseBody req with
        | error u => rw [hpb] at hh; simp at hh
        | ok raw =>
          rw [hpb] at hh
          obtain ⟨nf, ef, pf, mf⟩ := raw
          cases nf with
          | none => simp at hh
          | some n0 =>
            cases ef with
            | none => simp at hh
            | some e0 =>
              cases pf with
              | none => simp at hh
              | some p0 =>
                cases mf with
                | none => simp at hh
                | some m0 =>
                  simp only at hh
                  rcases vas_ok_status req env hh with h4 | h4 | h4 | h4 <;>
                    (rw [h4] at h; simp at h)
  · intro h
    rw [onRequestPost, ha_originRejected req env h]

theorem sentEmail_inv (req : Request) (env : Env) {pl : EmailPayload}
    (h : sentEmail req env = some pl) :
    ∃ n0 e0 p0 m0,
      pl = buildPayload req env (sanitize n0) (sanitize e0) (sanitize p0) (sanitize m0) ∧
      ValidFields (sanitize n0) (sanitize e0) (sanitize m0) := by
  rw [sentEmail] at h
  cases hor : originRejected req env with
  | true => rw [ha_originRejected req env hor] at h; simp at h
  | false =>
    rw [handleAttempt] at h
    rw [hor] at h
    simp only [Bool.false_eq_true, if_false] at h
    cases hpb : parseBody req with
    | error u => rw [hpb] at h; simp at h
    | ok raw =>
      rw [hpb] at h
      obtain ⟨nf, ef, pf, mf⟩ := raw
      cases nf with
      | none => simp at h
      | some n0 =>
        cases ef with
        | none => simp at h
        | some e0 =>
          cases pf with
          | none => simp at h
          | some p0 =>
            cases mf with
            | none => simp at h
            | some m0 =>
              simp only at h
              obtain ⟨hpl, hv⟩ := vas_inv req env h
              exact ⟨n0, e0, p0, m0, hpl, hv⟩

theorem jsOrElse_some_nil (s : List Char) : jsOrElse (some s) [] = s := by
  rw [jsOrElse]
  cases s with
  | nil => rfl
  | cons c cs => rfl

theorem parseBody_json (req : Request)
    (h : ctIncludesJson req.contentType = true) :
    parseBody req = req.jsonBody := by
  simp [parseBody, h]

theorem parseBody_form (req : Request) {f : RawContact}
    (h : ctIncludesJson req.contentType = false)
    (hf : req.formBody = .ok f) :
    parseBody req = .ok ⟨some (jsOrElse f.name []), some (jsOrElse f.email []),
      some (jsOrElse f.phone []), some (jsOrElse f.message [])⟩ := by
  simp [parseBody, h, hf]

theorem onRequestPost_sent (req : Request) (env : Env) {n e m : List Char}
    (p : List Char)
    (hha : handleAttempt req env = validateAndSend req env n e p m)
    (hv : ValidFields n e m) :
    onRequestPost req env =
      match req.fetchResult with
      | .error _ => ⟨500, failureJson⟩
      | .ok ok => if ok then ⟨200, successJson⟩ else ⟨500, failureJson⟩ := by
  rw [onRequestPost, hha, vas_valid req env p hv]
  cases req.fetchResult with
  | error u => rfl
  | ok ok => cases ok <;> rfl

theorem noTagPair_replicate_a (k : Nat) :
    noTagPair (List.replicate k 'a') = true := by
  induction k with
  | zero => rfl
  | succ k ih =>
    rw [List.replicate_succ, noTagPair_cons, if_neg (by decide)]
    exact ih

theorem trimmed_replicate_a (k : Nat) :
    trimmed (List.replicate k 'a') = true := by
  have hlead : ∀ j, noLeadWS (List.replicate j 'a') = true := by
    intro j
    cases j with
    | zero => rfl
    | succ j => rw [List.replicate_succ]; rfl
  rw [trimmed, List.reverse_replicate, hlead]
  rfl

theorem sanitize_replicate_a (k : Nat) :
    sanitize (List.replicate k 'a') = List.replicate k 'a' :=
  sanitize_clean (noTagPair_replicate_a k) (trimmed_replicate_a k)

theorem nlToBr_no_newline (s : List Char) : '\n' ∉ nlToBr s := by
  induction s with
  | nil => simp [nlToBr]
  | cons c cs ih =>
    rw [nlToBr]
    by_cases hc : c = '\n'
    · rw [if_pos hc]
      intro hmem
      rcases List.mem_cons.mp hmem with h | hmem
      · exact absurd h (by decide)
      rcases List.mem_cons.mp hmem with h | hmem
      · exact absurd h (by decide)
      rcases List.mem_cons.mp hmem with h | hmem
      · exact absurd h (by decide)
      rcases List.mem_cons.mp hmem with h | hmem
      · exact absurd h (by decide)
      exact ih hmem
    · rw [if_neg hc]
      intro hmem
      rcases List.mem_cons.mp hmem with h | hmem
      · exact hc h.symm
      · exact ih hmem

/-! Concrete fixtures used by the claim theorems below. -/

def okEnv : Env :=
  ⟨"key".toList, "owner@site.example".toList, "https://site.example".toList⟩

/-- A well-formed form-encoded submission (phone omitted) with a provider
that reports success. -/
def validFormReq : Request :=
  { origin := none
    contentType := none
    jsonBody := .error ()
    formBody := .ok ⟨some "Bob".toList, some "a@b.co".toList, none, some "hi".toList⟩
    cfConnectingIP := none
    xForwardedFor := none
    userAgent := none
    cf := none
    fetchResult := .ok true }

def jsonAbsentNameReq : Request :=
  { validFormReq with
    contentType := some "application/json".toList
    jsonBody := .ok ⟨none, some "a@b.co".toList, some [], some "hi".toList⟩ }

def jsonAbsentPhoneReq : Request :=
  { validFormReq with
    contentType := some "application/json".toList
    jsonBody := .ok ⟨some "Bob".toList, some "a@b.co".toList, none, some "hi".toList⟩ }

def jsonEmptyPhoneReq : Request :=
  { validFormReq with
    contentType := some "application/json".toList
    jsonBody := .ok ⟨some "Bob".toList, some "a@b.co".toList, some [], some "hi".toList⟩ }

def evilOriginReq : Request :=
  { validFormReq with origin := some "https://evil.example".toList }

def emptyOriginReq : Request :=
  { validFormReq with origin := some [] }

def emptyNameReq : Request :=
  { validFormReq with
    formBody := .ok ⟨some [], some "a@b.co".toList, none, some "hi".toList⟩ }

def invalidEmailReq : Request :=
  { validFormReq with
    formBody := .ok ⟨some "Bob".toList, some "not-an-email".toList, none, some "hi".toList⟩ }

def boundaryOkReq : Request :=
  { validFormReq with
    formBody := .ok ⟨some "Bob".toList, some "a@b.co".toList, none,
      some (List.replicate 5000 'a')⟩ }

def boundaryRejReq : Request :=
  { validFormReq with
    formBody := .ok ⟨some "Bob".toList, some "a@b.co".toList, none,
      some (List.replicate 5001 'a')⟩ }

def wsEnv : Env :=
  ⟨"key".toList, "owner@site.example".toList,
    "https://site.example, https://other.example".toList⟩

def wsOriginReq : Request :=
  { validFormReq with origin := some "https://other.example".toList }

def longNameReq : Request :=
  { validFormReq with
    formBody := .ok ⟨some (List.replicate 101 'a'), some "a@b.co".toList, none,
      some "hi".toList⟩ }

def sentPl : EmailPayload :=
  buildPayload validFormReq okEnv "Bob".toList "a@b.co".toList [] "hi".toList

/-! The claim theorems. -/

/-- Claim C1, amended.  For every submission parsed with all four fields
present, if name, email or message is empty after sanitation the handler
returns 400 with the message naming the required fields (so never 200 or
500).  For JSON bodies, however, an absent field does not default to the
empty string: sanitizing it throws, and the handler returns 500 through
the generic error path. -/
theorem required_fields_validation :
    (∀ (req : Request) (env : Env) (n0 e0 p0 m0 : List Char),
      originRejected req env = false →
      parseBody req = .ok ⟨some n0, some e0, some p0, some m0⟩ →
      (sanitize n0 = [] ∨ sanitize e0 = [] ∨ sanitize m0 = []) →
      onRequestPost req env = ⟨400, missingFieldsMsg⟩) ∧
    (∀ (req : Request) (env : Env) (raw : RawContact),
      originRejected req env = false →
      parseBody req = .ok raw →
      (raw.name = none ∨ raw.email = none ∨ raw.phone = none ∨ raw.message = none) →
      onRequestPost req env = ⟨500, failureJson⟩) := by
  constructor
  · intro req env n0 e0 p0 m0 hor hp hemp
    rw [onRequestPost, ha_fields req env hor hp, vas_missing req env _ hemp]
  · intro req env raw hor hp habs
    exact onRequestPost_of_error req env (by rw [ha_absent req env hor hp habs])

/-- Claim C1, witness: a form submission with an empty name gets the 400. -/
theorem required_fields_validation_witness :
    onRequestPost emptyNameReq okEnv = ⟨400, missingFieldsMsg⟩ :=
  required_fields_validation.1 emptyNameReq okEnv [] "a@b.co".toList [] "hi".toList
    rfl rfl (Or.inl rfl)

/-- Claim C1, counterexample to the statement as written: a JSON submission
whose name field is absent yields 500, not 400. -/
theorem required_fields_json_absent_counterexample :
    onRequestPost jsonAbsentNameReq okEnv = ⟨500, failureJson⟩ ∧
    onRequestPost jsonAbsentNameReq okEnv ≠ ⟨400, missingFieldsMsg⟩ := by decide

/-- Claim C2.  For every input the sanitized output contains no
HTML-tag-like substring (no `<` with a later `>`); sanitizing an input that
is already clean (tag-free and with trimmed ends) is a no-op; and sanitize
is idempotent. -/
theorem sanitize_strips_tags_clean_noop_idempotent (l : List Char) :
    (¬ ∃ a b c, sanitize l = a ++ '<' :: (b ++ '>' :: c)) ∧
    (noTagPair l = true ∧ trimmed l = true → sanitize l = l) ∧
    sanitize (sanitize l) = sanitize l :=
  ⟨(noTagPair_iff _).mp (sanitize_noTagPair l),
   fun h => sanitize_clean h.1 h.2,
   sanitize_idem l⟩

/-- Claim C2, witness at a concrete clean input. -/
theorem sanitize_strips_tags_clean_noop_idempotent_witness :
    sanitize "ab".toList = "ab".toList :=
  (sanitize_strips_tags_clean_noop_idempotent "ab".toList).2.1 (by decide)

/-- Claim C3, counterexample to the statement as written: an Origin header
with the empty value is not in the allow-list yet the request is not
rejected (the guard `origin && ...` skips falsy origins), and the 403
response does carry a body, the text `Forbidden`. -/
theorem origin_check_counterexample :
    (splitComma okEnv.ALLOWED_ORIGINS).contains [] = false ∧
    onRequestPost emptyOriginReq okEnv = ⟨200, successJson⟩ ∧
    onRequestPost evilOriginReq okEnv = ⟨403, forbiddenMsg⟩ ∧
    forbiddenMsg ≠ [] := by decide

/-- Claim C3, amended.  A request whose Origin header is non-empty and not
in the comma-separated allow-list fails immediately with 403 and the
plain-text body `Forbidden`; a request without an Origin header is never
rejected on origin grounds (and neither is one with an empty Origin). -/
theorem origin_check_amended (req : Request) (env : Env) :
    (∀ o, req.origin = some o → o ≠ [] →
      (splitComma env.ALLOWED_ORIGINS).contains o = false →
      onRequestPost req env = ⟨403, forbiddenMsg⟩) ∧
    (req.origin = none → (onRequestPost req env).status ≠ 403) := by
  constructor
  · intro o ho hne hmem
    have hoe : o.isEmpty = false := by
      cases o with
      | nil => exact absurd rfl hne
      | cons c cs => rfl
    have hrej : originRejected req env = true := by
      unfold originRejected
      rw [ho]
      show (!o.isEmpty && !(splitComma env.ALLOWED_ORIGINS).contains o) = true
      rw [hoe, hmem]
      rfl
    rw [onRequestPost, ha_originRejected req env hrej]
  · intro ho h
    have hrej := (status403_iff req env).mp h
    simp [originRejected, ho] at hrej

/-- Claim C3, witness: the disallowed origin from the spec example. -/
theorem origin_check_amended_witness :
    onRequestPost evilOriginReq okEnv = ⟨403, forbiddenMsg⟩ :=
  (origin_check_amended evilOriginReq okEnv).1 "https://evil.example".toList rfl
    (by decide) (by decide)

/-- Claim C4.  Any exception reaching the top-level catch produces exactly
the opaque 500 JSON body; a fully valid submission with a successful
provider response produces exactly the 200 success JSON body; and a valid
submission whose outbound call fails (network error or non-ok provider
status) also produces exactly the opaque 500 body. -/
theorem outcome_success_or_opaque_500 :
    (∀ (req : Request) (env : Env), (handleAttempt req env).1 = .error () →
      onRequestPost req env = ⟨500, failureJson⟩) ∧
    (∀ (req : Request) (env : Env) (n0 e0 p0 m0 : List Char),
      originRejected req env = false →
      parseBody req = .ok ⟨some n0, some e0, some p0, some m0⟩ →
      ValidFields (sanitize n0) (sanitize e0) (sanitize m0) →
      req.fetchResult = .ok true →
      onRequestPost req env = ⟨200, successJson⟩) ∧
    (∀ (req : Request) (env : Env) (n0 e0 p0 m0 : List Char),
      originRejected req env = false →
      parseBody req = .ok ⟨some n0, some e0, some p0, some m0⟩ →
      ValidFields (sanitize n0) (sanitize e0) (sanitize m0) →
      (req.fetchResult = .error () ∨ req.fetchResult = .ok false) →
      onRequestPost req env = ⟨500, failureJson⟩) := by
  refine ⟨fun req env h => onRequestPost_of_error req env h, ?_, ?_⟩
  · intro req env n0 e0 p0 m0 hor hp hv hf
    rw [onRequestPost, ha_fields req env hor hp, vas_ok_200 req env _ hv hf]
  · intro req env n0 e0 p0 m0 hor hp hv hf
    rw [onRequestPost_sent req env (sanitize p0) (ha_fields req env hor hp) hv]
    rcases hf with hf | hf
    · rw [hf]
    · rw [hf]
      rfl

/-- Claim C4, witness: the valid fixture with a succeeding provider. -/
theorem outcome_success_or_opaque_500_witness :
    onRequestPost validFormReq okEnv = ⟨200, successJson⟩ :=
  outcome_success_or_opaque_500.2.1 validFormReq okEnv
    "Bob".toList "a@b.co".toList [] "hi".toList rfl rfl (by decide) rfl

/-- Claim C5.  The email test agrees exactly with the declarative
`local@domain.tld` shape; a submission whose sanitized email fails it (and
passes the required-field check) gets 400 `Invalid email format`;
`not-an-email` fails the shape, `a@b.co` passes it, and the concrete
submission with `not-an-email` gets the 400. -/
theorem email_shape_validation :
    (∀ l, emailRegexTest l = true ↔ emailShape l) ∧
    (∀ (req : Request) (env : Env) (n0 e0 p0 m0 : List Char),
      originRejected req env = false →
      parseBody req = .ok ⟨some n0, some e0, some p0, some m0⟩ →
      sanitize n0 ≠ [] → sanitize e0 ≠ [] → sanitize m0 ≠ [] →
      emailRegexTest (sanitize e0) = false →
      onRequestPost req env = ⟨400, invalidEmailMsg⟩) ∧
    emailRegexTest "not-an-email".toList = false ∧
    emailRegexTest "a@b.co".toList = true ∧
    onRequestPost invalidEmailReq okEnv = ⟨400, invalidEmailMsg⟩ := by
  refine ⟨emailRegexTest_iff_emailShape, ?_, by decide, by decide, by decide⟩
  intro req env n0 e0 p0 m0 hor hp hn he hm hr
  rw [onRequestPost, ha_fields req env hor hp,
    vas_invalidEmail req env _ hn he hm hr]

/-- Claim C5, witness: `a@b.co` satisfies the declarative shape, by the
equivalence. -/
theorem email_shape_validation_witness :
    emailShape "a@b.co".toList :=
  (email_shape_validation.1 "a@b.co".toList).mp (by decide)

/-- Claim C6.  For submissions that pass the required-field and email
checks, the handler answers 400 `Input too long` exactly when the
post-sanitation name exceeds 100, email exceeds 255, or message exceeds
5000 characters; at the boundary a 5001-character message is rejected and
a 5000-character one is accepted. -/
theorem length_limits_post_sanitation :
    (∀ (req : Request) (env : Env) (n0 e0 p0 m0 : List Char),
      originRejected req env = false →
      parseBody req = .ok ⟨some n0, some e0, some p0, some m0⟩ →
      sanitize n0 ≠ [] → sanitize e0 ≠ [] → sanitize m0 ≠ [] →
      emailRegexTest (sanitize e0) = true →
      (onRequestPost req env = ⟨400, tooLongMsg⟩ ↔
        ((sanitize n0).length > 100 ∨ (sanitize e0).length > 255 ∨
          (sanitize m0).length > 5000))) ∧
    onRequestPost boundaryRejReq okEnv = ⟨400, tooLongMsg⟩ ∧
    onRequestPost boundaryOkReq okEnv = ⟨200, successJson⟩ := by
  refine ⟨?_, ?_, ?_⟩
  · intro req env n0 e0 p0 m0 hor hp hn he hm hr
    constructor
    · intro h
      by_contra hlen
      push_neg at hlen
      obtain ⟨h1, h2, h3⟩ := hlen
      have hv : ValidFields (sanitize n0) (sanitize e0) (sanitize m0) :=
        ⟨hn, he, hm, hr, by omega, by omega, by omega⟩
      rw [onRequestPost_sent req env (sanitize p0) (ha_fields req env hor hp) hv] at h
      cases hf : req.fetchResult with
      | error u => rw [hf] at h; simp at h
      | ok ok =>
        rw [hf] at h
        cases ok with
        | true => simp at h
        | false => simp at h
    · intro hlen
      rw [onRequestPost, ha_fields req env hor hp,
        vas_tooLong req env _ hn he hm hr hlen]
  · have hm5 := sanitize_replicate_a 5001
    have hp : parseBody boundaryRejReq = .ok ⟨some "Bob".toList, some "a@b.co".toList,
      some [], some (List.replicate 5001 'a')⟩ := rfl
    have hmne : sanitize (List.replicate 5001 'a') ≠ [] := by
      rw [hm5]
      intro hh
      have hlen2 := congrArg List.length hh
      rw [List.length_replicate, List.length_nil] at hlen2
      omega
    have hlen : (sanitize "Bob".toList).length > 100 ∨
        (sanitize "a@b.co".toList).length > 255 ∨
        (sanitize (List.replicate 5001 'a')).length > 5000 := by
      right; right
      rw [hm5, List.length_replicate]
      omega
    rw [onRequestPost, ha_fields boundaryRejReq okEnv rfl hp,
      vas_tooLong boundaryRejReq okEnv (sanitize []) (by decide) (by decide)
        hmne (by decide) hlen]
  · have hm5 := sanitize_replicate_a 5000
    have hp : parseBody boundaryOkReq = .ok ⟨some "Bob".toList, some "a@b.co".toList,
      some [], some (List.replicate 5000 'a')⟩ := rfl
    have hv : ValidFields (sanitize "Bob".toList) (sanitize "a@b.co".toList)
        (sanitize (List.replicate 5000 'a')) := by
      refine ⟨by decide, by decide, ?_, by decide, by decide, by decide, ?_⟩
      · rw [hm5]
        intro hh
        have hlen2 := congrArg List.length hh
        rw [List.length_replicate, List.length_nil] at hlen2
        omega
      · rw [hm5, List.length_replicate]
    rw [onRequestPost_sent boundaryOkReq okEnv (sanitize [])
      (ha_fields boundaryOkReq okEnv rfl hp) hv]
    rfl

/-- Claim C6, witness: a 101-character name is rejected as too long. -/
theorem length_limits_post_sanitation_witness :
    onRequestPost longNameReq okEnv = ⟨400, tooLongMsg⟩ :=
  (length_limits_post_sanitation.1 longNameReq okEnv (List.replicate 101 'a')
    "a@b.co".toList [] "hi".toList rfl rfl (by decide) (by decide) (by decide)
    (by decide)).mpr (Or.inl (by decide))

/-- Claim C7.  Every validated submission reaches the outbound call with
the payload built by `buildPayload`: fixed sender, recipient from the
environment, subject embedding the sanitized name, reply-to the sanitized
email, the HTML body embedding all sanitized fields and the connection
metadata with `unknown` fallbacks, and every newline of the message turned
into `<br>` (so no newline survives in the converted message). -/
theorem outbound_payload_construction :
    (∀ (req : Request) (env : Env) (n0 e0 p0 m0 : List Char),
      originRejected req env = false →
      parseBody req = .ok ⟨some n0, some e0, some p0, some m0⟩ →
      ValidFields (sanitize n0) (sanitize e0) (sanitize m0) →
      sentEmail req env = some (buildPayload req env (sanitize n0) (sanitize e0)
        (sanitize p0) (sanitize m0))) ∧
    (∀ (req : Request) (env : Env) (n e p m : List Char),
      (buildPayload req env n e p m).«from» = "contact@yourdomain.com".toList ∧
      (buildPayload req env n e p m).«to» = env.TO_EMAIL ∧
      (buildPayload req env n e p m).subject = "Contact Form: ".toList ++ n ∧
      (buildPayload req env n e p m).reply_to = e ∧
      (buildPayload req env n e p m).html = buildHtml n e p m
        (jsOrElse req.cfConnectingIP (jsOrElse req.xForwardedFor unknownStr))
        (match req.cf with | some c => jsOrElse c.city unknownStr | none => unknownStr)
        (match req.cf with | some c => jsOrElse c.region unknownStr | none => unknownStr)
        (match req.cf with | some c => jsOrElse c.country unknownStr | none => unknownStr)
        (match req.cf with | some c => jsOrElse c.timezone unknownStr | none => unknownStr)
        (match req.cf with | some c => jsOrElse c.asn unknownStr | none => unknownStr)
        (match req.cf with | some c => jsOrElse c.colo unknownStr | none => unknownStr)
        (jsOrElse req.userAgent unknownStr)) ∧
    (∀ s, '\n' ∉ nlToBr s) := by
  refine ⟨?_, ?_, nlToBr_no_newline⟩
  · intro req env n0 e0 p0 m0 hor hp hv
    rw [sentEmail, ha_fields req env hor hp, vas_valid req env _ hv]
  · intro req env n e p m
    exact ⟨rfl, rfl, rfl, rfl, rfl⟩

/-- Claim C7, witness: the payload sent for the valid fixture. -/
theorem outbound_payload_construction_witness :
    sentEmail validFormReq okEnv = some (buildPayload validFormReq okEnv
      (sanitize "Bob".toList) (sanitize "a@b.co".toList) (sanitize [])
      (sanitize "hi".toList)) :=
  outbound_payload_construction.1 validFormReq okEnv
    "Bob".toList "a@b.co".toList [] "hi".toList rfl rfl (by decide)

/-- Claim C8, counterexample to the statement as written: a JSON submission
that omits phone (all other fields valid) yields 500 and never reaches the
outbound call, because `sanitize(undefined)` throws. -/
theorem phone_optional_counterexample :
    onRequestPost jsonAbsentPhoneReq okEnv = ⟨500, failureJson⟩ ∧
    sentEmail jsonAbsentPhoneReq okEnv = none := by decide

/-- Claim C8, amended.  The phone field may be omitted from a form-encoded
body (it defaults to the empty string) and may be empty in a JSON body; in
both cases an otherwise-valid submission still reaches the outbound
dispatch.  In a JSON body, however, the phone field must be present: if it
is absent the handler returns 500 and never dispatches. -/
theorem phone_optional_amended :
    (∀ (req : Request) (env : Env) (f : RawContact),
      originRejected req env = false →
      ctIncludesJson req.contentType = false →
      req.formBody = .ok f → f.phone = none →
      ValidFields (sanitize (jsOrElse f.name [])) (sanitize (jsOrElse f.email []))
        (sanitize (jsOrElse f.message [])) →
      ∃ pl, sentEmail req env = some pl) ∧
    (∀ (req : Request) (env : Env) (n0 e0 m0 : List Char),
      originRejected req env = false →
      ctIncludesJson req.contentType = true →
      req.jsonBody = .ok ⟨some n0, some e0, some [], some m0⟩ →
      ValidFields (sanitize n0) (sanitize e0) (sanitize m0) →
      ∃ pl, sentEmail req env = some pl) ∧
    (∀ (req : Request) (env : Env) (n0 e0 m0 : List Char),
      originRejected req env = false →
      ctIncludesJson req.contentType = true →
      req.jsonBody = .ok ⟨some n0, some e0, none, some m0⟩ →
      onRequestPost req env = ⟨500, failureJson⟩ ∧ sentEmail req env = none) := by
  refine ⟨?_, ?_, ?_⟩
  · intro req env f hor hct hf hphone hv
    have hp := parseBody_form req hct hf
    exact ⟨_, by rw [sentEmail, ha_fields req env hor hp, vas_valid req env _ hv]⟩
  · intro req env n0 e0 m0 hor hct hj hv
    have hp : parseBody req = .ok ⟨some n0, some e0, some [], some m0⟩ := by
      rw [parseBody_json req hct, hj]
    exact ⟨_, by rw [sentEmail, ha_fields req env hor hp, vas_valid req env _ hv]⟩
  · intro req env n0 e0 m0 hor hct hj
    have hp : parseBody req = .ok ⟨some n0, some e0, none, some m0⟩ := by
      rw [parseBody_json req hct, hj]
    have hha := ha_absent req env hor hp (by simp)
    exact ⟨onRequestPost_of_error req env (by rw [hha]), by rw [sentEmail, hha]⟩

/-- Claim C8, witness: the valid form fixture omits phone and dispatches. -/
theorem phone_optional_amended_witness :
    ∃ pl, sentEmail validFormReq okEnv = some pl :=
  phone_optional_amended.1 validFormReq okEnv
    ⟨some "Bob".toList, some "a@b.co".toList, none, some "hi".toList⟩
    rfl rfl rfl rfl (by decide)

/-- Claim C9.  Whenever the handler issues the outbound request, the
payload was built from field values that satisfy every validation rule:
nonempty name of at most 100 characters, nonempty shape-correct email of at
most 255 characters, nonempty message of at most 5000 characters, and all
four fields free of tag-like substrings and of leading or trailing
whitespace. -/
theorem payload_fields_satisfy_validation (req : Request) (env : Env)
    (pl : EmailPayload) (h : sentEmail req env = some pl) :
    ∃ n e p m, pl = buildPayload req env n e p m ∧
      n ≠ [] ∧ n.length ≤ 100 ∧ e ≠ [] ∧ emailShape e ∧ e.length ≤ 255 ∧
      m ≠ [] ∧ m.length ≤ 5000 ∧
      noTagPair n = true ∧ trimmed n = true ∧ noTagPair e = true ∧ trimmed e = true ∧
      noTagPair p = true ∧ trimmed p = true ∧ noTagPair m = true ∧ trimmed m = true := by
  obtain ⟨n0, e0, p0, m0, hpl, hv⟩ := sentEmail_inv req env h
  obtain ⟨hn, he, hm, hr, h1, h2, h3⟩ := hv
  exact ⟨sanitize n0, sanitize e0, sanitize p0, sanitize m0, hpl, hn, h1, he,
    (emailRegexTest_iff_emailShape _).mp hr, h2, hm, h3,
    sanitize_noTagPair n0, sanitize_trimmed n0, sanitize_noTagPair e0,
    sanitize_trimmed e0, sanitize_noTagPair p0, sanitize_trimmed p0,
    sanitize_noTagPair m0, sanitize_trimmed m0⟩

set_option maxRecDepth 10000 in
/-- Claim C9, witness at the concrete sent payload of the valid fixture. -/
theorem payload_fields_satisfy_validation_witness :
    ∃ n e p m, sentPl = buildPayload validFormReq okEnv n e p m ∧
      n ≠ [] ∧ n.length ≤ 100 ∧ e ≠ [] ∧ emailShape e ∧ e.length ≤ 255 ∧
      m ≠ [] ∧ m.length ≤ 5000 ∧
      noTagPair n = true ∧ trimmed n = true ∧ noTagPair e = true ∧ trimmed e = true ∧
      noTagPair p = true ∧ trimmed p = true ∧ noTagPair m = true ∧ trimmed m = true :=
  payload_fields_satisfy_validation validFormReq okEnv sentPl (by decide)

/-- Claim C10.  For non-empty Origin values the 403 outcome is decided by
exact string equality against the comma-split segments of
`ALLOWED_ORIGINS` (no trimming or other normalization); concretely, an
allow-list written with a space after the comma keeps that space in its
segment, and the origin written without the space is rejected with 403. -/
theorem origin_exact_membership :
    (∀ (req : Request) (env : Env) (o : List Char), req.origin = some o → o ≠ [] →
      ((onRequestPost req env).status = 403 ↔
        (splitComma env.ALLOWED_ORIGINS).contains o = false)) ∧
    splitComma wsEnv.ALLOWED_ORIGINS =
      ["https://site.example".toList, " https://other.example".toList] ∧
    onRequestPost wsOriginReq wsEnv = ⟨403, forbiddenMsg⟩ := by
  refine ⟨?_, by decide, by decide⟩
  intro req env o ho hne
  rw [status403_iff]
  have hoe : o.isEmpty = false := by
    cases o with
    | nil => exact absurd rfl hne
    | cons c cs => rfl
  simp [originRejected, ho, hoe]

/-- Claim C10, witness: the same origin is also rejected against the
single-entry allow-list, via the exact-membership characterization. -/
theorem origin_exact_membership_witness :
    (onRequestPost wsOriginReq okEnv).status = 403 :=
  (origin_exact_membership.1 wsOriginReq okEnv "https://other.example".toList rfl
    (by decide)).mpr (by decide)

end Contact

